import Mathlib

/-!
Verification of the ec2-instance-manager application core: the filter/sort
engine, the type-picker state machine, the price cache, the navigation
helpers and the resize saga, as implemented in src/app.rs, src/main.rs and
src/ec2.rs.  Remote calls are modelled by their outcomes (`Except String
Unit`); `f64` prices are modelled as rationals; Rust's stable `sort_by` is
modelled by a stable insertion sort with the very comparator the source
passes (two stable sorts with the same comparator produce the same list);
`usize` arithmetic is `Nat` with explicit wrap-around modulo `2 ^ 64` where
the source can underflow.
-/

namespace Ec2Mgr

/-! ### Byte-order string primitives

Rust compares `String`s byte-lexicographically; on valid UTF-8 this equals
codepoint-lexicographic order, which is what these `List Char` functions
implement.  `str::contains` is plain substring search, `to_lowercase` on the
fields at hand and `eq_ignore_ascii_case` only fold ASCII letters, matching
`Char.toLower`. -/

/-- `charsLead needle hay` holds when `needle` is a leading segment of `hay`
(Rust `str::starts_with`). -/
def charsLead : List Char → List Char → Bool
  | [], _ => true
  | _ :: _, [] => false
  | a :: as, b :: bs => a == b && charsLead as bs

/-- `charsContain needle hay`: `needle` occurs contiguously inside `hay`
(Rust `str::contains`). -/
def charsContain (needle : List Char) : List Char → Bool
  | [] => charsLead needle []
  | c :: rest => charsLead needle (c :: rest) || charsContain needle rest

/-- Rust `hay.contains(needle)`. -/
def strContains (hay needle : String) : Bool :=
  charsContain needle.toList hay.toList

/-- Rust `s.starts_with(p)`. -/
def strStarts (s p : String) : Bool :=
  charsLead p.toList s.toList

/-- Rust `str::to_lowercase` restricted to the ASCII fold performed by
`Char.toLower`; the instance fields compared by the program are ASCII. -/
def strLower (s : String) : String :=
  ⟨s.toList.map Char.toLower⟩

/-- Rust `str::eq_ignore_ascii_case`. -/
def eqIgnoreAsciiCase (a b : String) : Bool :=
  a.toList.map Char.toLower == b.toList.map Char.toLower

/-- Rust `String::is_empty`. -/
def strIsEmpty (s : String) : Bool :=
  s.toList.isEmpty

/-- Rust `String::pop`: drop the final character. -/
def strPop (s : String) : String :=
  ⟨s.toList.dropLast⟩

/-- Byte-lexicographic `≤` on character lists (Rust `Ord` on `str`). -/
def charsLe : List Char → List Char → Bool
  | [], _ => true
  | _ :: _, [] => false
  | a :: as, b :: bs =>
    if a.toNat < b.toNat then true
    else if b.toNat < a.toNat then false
    else charsLe as bs

/-- Rust `a.cmp(b) != Greater` for strings. -/
def strLeB (a b : String) : Bool :=
  charsLe a.toList b.toList

theorem charsContain_nil (l : List Char) : charsContain [] l = true := by
  cases l <;> simp [charsContain, charsLead]

theorem charsLe_total (a b : List Char) :
    charsLe a b = true ∨ charsLe b a = true := by
  induction a generalizing b with
  | nil => exact .inl rfl
  | cons x xs ih =>
    cases b with
    | nil => exact .inr rfl
    | cons y ys =>
      by_cases h1 : x.toNat < y.toNat
      · left; simp [charsLe, h1]
      · by_cases h2 : y.toNat < x.toNat
        · right; simp [charsLe, h2]
        · rcases ih ys with h | h
          · left; simp [charsLe, h1, h2, h]
          · right; simp [charsLe, h1, h2, h]

theorem charsLe_trans {a b c : List Char} (hab : charsLe a b = true)
    (hbc : charsLe b c = true) : charsLe a c = true := by
  induction a generalizing b c with
  | nil => rfl
  | cons x xs ih =>
    cases b with
    | nil => simp [charsLe] at hab
    | cons y ys =>
      cases c with
      | nil => simp [charsLe] at hbc
      | cons z zs =>
        simp only [charsLe] at hab hbc ⊢
        by_cases hxy : x.toNat < y.toNat
        · by_cases hyz : y.toNat < z.toNat
          · simp [show x.toNat < z.toNat from Nat.lt_trans hxy hyz]
          · by_cases hzy : z.toNat < y.toNat
            · simp [hyz, hzy] at hbc
            · have : y.toNat = z.toNat := Nat.le_antisymm (Nat.le_of_not_lt hzy) (Nat.le_of_not_lt hyz)
              simp [show x.toNat < z.toNat from this ▸ hxy]
        · by_cases hyx : y.toNat < x.toNat
          · simp [hxy, hyx] at hab
          · have hxyeq : x.toNat = y.toNat :=
              Nat.le_antisymm (Nat.le_of_not_lt hyx) (Nat.le_of_not_lt hxy)
            by_cases hyz : y.toNat < z.toNat
            · simp [show x.toNat < z.toNat from hxyeq ▸ hyz]
            · by_cases hzy : z.toNat < y.toNat
              · simp [hyz, hzy] at hbc
              · have hyzeq : y.toNat = z.toNat :=
                  Nat.le_antisymm (Nat.le_of_not_lt hzy) (Nat.le_of_not_lt hyz)

                have hxz : ¬ x.toNat < z.toNat := by omega
                have hzx : ¬ z.toNat < x.toNat := by omega
                simp only [hxy, hyx, if_false, if_neg hxy, if_neg hyx] at hab
                simp only [if_neg hyz, if_neg hzy] at hbc
                simp [if_neg hxz, if_neg hzx, ih hab hbc]

theorem strLeB_total (a b : String) : strLeB a b = true ∨ strLeB b a = true :=
  charsLe_total a.toList b.toList

theorem strLeB_trans {a b c : String} (hab : strLeB a b = true)
    (hbc : strLeB b c = true) : strLeB a c = true :=
  charsLe_trans hab hbc

/-! ### Data model (src/ec2.rs, src/app.rs)

`InstanceInfo` mirrors the Rust struct field for field; the AWS `DateTime`
launch timestamp is abstracted to a number of seconds. -/

/-- `InstanceInfo` from src/ec2.rs. -/
structure InstanceInfo where
  id : String
  name : Option String
  instance_type : String
  state : String
  architecture : Option String
  availability_zone : Option String
  public_ip : Option String
  launch_time : Option Nat
  deriving Repr, DecidableEq

/-- `Prices` from src/app.rs: per-type partial price record, `f64` as `ℚ`. -/
structure Prices where
  on_demand : Option ℚ
  spot : Option ℚ
  deriving Repr, DecidableEq

/-- The `type_prices` HashMap of `App`, modelled as an association list with
first-occurrence lookup. -/
abbrev PriceMap := List (String × Prices)

/-- Lookup in the price cache (`HashMap::get`). -/
def lookupP : PriceMap → String → Option Prices
  | [], _ => none
  | (k, v) :: rest, t => if k = t then some v else lookupP rest t

/-- Lookup in a bulk price event payload (`HashMap<String, f64>`). -/
def lookupQ : List (String × ℚ) → String → Option ℚ
  | [], _ => none
  | (k, v) :: rest, t => if k = t then some v else lookupQ rest t

/-- The on-demand price of a type, if cached:
`type_prices.get(t).and_then(|p| p.on_demand)`. -/
def odKey (prices : PriceMap) (t : String) : Option ℚ :=
  (lookupP prices t).bind (fun p => p.on_demand)

/-- The spot price of a type, if cached. -/
def spotKey (prices : PriceMap) (t : String) : Option ℚ :=
  (lookupP prices t).bind (fun p => p.spot)

/-! ### Instance filter (src/app.rs, `App::update_filter`) -/

/-- The match predicate of `App::update_filter`: case-insensitive substring
match against id, name, type and state (OR across fields). -/
def matchesFilter (f : String) (i : InstanceInfo) : Bool :=
  let fl := strLower f
  strContains (strLower i.id) fl
    || (match i.name with
        | some n => strContains (strLower n) fl
        | none => false)
    || strContains (strLower i.instance_type) fl
    || strContains (strLower i.state) fl

/-- Display-name sort key: missing name sorts as the empty string. -/
def nameKey (i : InstanceInfo) : String :=
  i.name.getD ""

/-- The comparator `update_filter` hands to `sort_by`, as a `≤`-test. -/
def nameLeB (a b : InstanceInfo) : Bool :=
  strLeB (nameKey a) (nameKey b)

/-- Visible list plus row selection, the pieces of `App` state written by
`update_filter` (`filtered_instances` and `list_state`). -/
structure FilterOutcome where
  visible : List InstanceInfo
  selected : Option Nat
  deriving Repr, DecidableEq

/-- The pre-sort filtering step of `App::update_filter`: an empty query
keeps everything, otherwise keep the matching instances. -/
def rawFiltered (instances : List InstanceInfo) (f : String) :
    List InstanceInfo :=
  if strIsEmpty f then instances
  else instances.filter (fun i => matchesFilter f i)

/-- Shallow embedding of `App::update_filter` (src/app.rs): filter (empty
query keeps everything), then — when the result is non-empty — stable-sort
by display name and reset an out-of-range selection to row 0; an empty
result clears the selection.  `sel` is the incoming `list_state.selected()`. -/
def update_filter (instances : List InstanceInfo) (filter : String)
    (sel : Option Nat) : FilterOutcome :=
  let fi := rawFiltered instances filter
  if fi.isEmpty then ⟨fi, none⟩
  else
    let sorted := List.insertionSort (fun a b => nameLeB a b = true) fi
    if sorted.length ≤ sel.getD 0 then ⟨sorted, some 0⟩ else ⟨sorted, sel⟩

/-! ### Type filter (src/main.rs, `SelectingType` Char/Backspace handlers) -/

/-- The price key the type comparator sorts by, with a missing on-demand
price treated as `+∞` (the source uses the sentinel `f64::MAX`). -/
def priceTop (prices : PriceMap) (t : String) : WithTop ℚ :=
  match odKey prices t with
  | some q => (q : WithTop ℚ)
  | none => ⊤

/-- `a < b` on optional prices, `none` acting as `+∞`. -/
def keyLt : Option ℚ → Option ℚ → Bool
  | some a, some b => decide (a < b)
  | some _, none => true
  | none, _ => false

/-- Equality test on optional prices. -/
def keyEqB : Option ℚ → Option ℚ → Bool
  | some a, some b => decide (a = b)
  | none, none => true
  | _, _ => false

/-- The comparator of the type picker, as a `≤`-test: ascending on-demand
price (unknown last), ties broken by ascending name —
`price_a.partial_cmp(&price_b).unwrap_or(Equal).then_with(|| a.cmp(b))`. -/
def typeLeB (prices : PriceMap) (a b : String) : Bool :=
  keyLt (odKey prices a) (odKey prices b)
    || (keyEqB (odKey prices a) (odKey prices b) && strLeB a b)

/-- The specification-level ranking the comparator realises. -/
def rankRel (prices : PriceMap) (a b : String) : Prop :=
  priceTop prices a < priceTop prices b
    ∨ (priceTop prices a = priceTop prices b ∧ strLeB a b = true)

/-- Options list plus picker selection produced by re-filtering. -/
structure TypeOptions where
  options : List String
  selected_index : Option Nat
  deriving Repr, DecidableEq

/-- The re-filter performed by the `SelectingType` Char handler (and by the
Backspace handler when input stays non-empty): keep the names containing
`input`, stable-sort by the price comparator, select row 0 when non-empty. -/
def applyTypeFilter (allTypes : List String) (input : String)
    (prices : PriceMap) : TypeOptions :=
  let opts := List.insertionSort (fun a b => typeLeB prices a b = true)
      (allTypes.filter (fun t => strContains t input))
  ⟨opts, if opts.isEmpty then none else some 0⟩

/-! ### Application state machine (src/app.rs `AppState`, src/main.rs) -/

/-- Payload of `AppState::SelectingType`. -/
structure SelSt where
  input : String
  options : List String
  selected_index : Option Nat
  default_mode_active : Bool
  deriving Repr, DecidableEq

/-- `AppState` from src/app.rs. -/
inductive AppState
  | list
  | filterInput
  | selectingType (s : SelSt)
  | confirmReboot (instanceId : String)
  | processing (message : String)
  deriving Repr, DecidableEq

/-- Project out the `SelectingType` payload if the state carries one. -/
def selOf : AppState → Option SelSt
  | .selectingType s => some s
  | _ => none

/-- The `SelectingType` Char handler (src/main.rs): while default mode is
active, clear the input and deactivate it, then append the character and
recompute the options from the architecture-compatible types and the price
cache. -/
def charKey (st : SelSt) (c : Char) (allTypes : List String)
    (prices : PriceMap) : SelSt :=
  let cleared := if st.default_mode_active then "" else st.input
  let dma := if st.default_mode_active then false else st.default_mode_active
  let input := cleared.push c
  let r := applyTypeFilter allTypes input prices
  ⟨input, r.options, r.selected_index, dma⟩

/-- The `SelectingType` Backspace handler (src/main.rs): guarded by
`!default_mode_active` — while default mode is active nothing happens.
Otherwise pop a character; an emptied input re-enters default mode with the
configured default type and the alphabetically sorted full list, a
non-empty input re-filters. -/
def backspaceKey (st : SelSt) (allTypes : List String) (defaultType : String)
    (prices : PriceMap) : SelSt :=
  if st.default_mode_active then st
  else
    let input := strPop st.input
    if strIsEmpty input then
      ⟨defaultType, List.insertionSort (fun a b => strLeB a b = true) allTypes,
        none, true⟩
    else
      let r := applyTypeFilter allTypes input prices
      ⟨input, r.options, r.selected_index, false⟩

/-- The choice made by the `SelectingType` Enter handler: the sole entry
when exactly one option remains; otherwise the entry at the selection index
when one is set; otherwise the typed text when it equals some option. -/
def chooseOption (input : String) (options : List String)
    (selIdx : Option Nat) : Option String :=
  if options.length == 1 then options.head?
  else
    match selIdx with
    | some i => options[i]?
    | none =>
      if options.any (fun t => decide (t = input)) then some input else none

/-- Observable outcome of pressing Enter in `SelectingType`. -/
inductive EnterResult
  | stay
  | toList
  | resize (newType : String)
  deriving Repr, DecidableEq

/-- The `SelectingType` Enter handler for the highlighted instance whose
current type is `currentType`: no choice is a no-op; a choice equal to the
current type returns to `List` with no remote call; otherwise the resize
saga is spawned for the chosen type. -/
def enterKey (input : String) (options : List String) (selIdx : Option Nat)
    (currentType : String) : EnterResult :=
  match chooseOption input options selIdx with
  | none => .stay
  | some t => if t = currentType then .toList else .resize t

/-- Where the List-mode reboot key sends the state (src/main.rs, `'r'`).
No background task is spawned by this handler in either branch. -/
def rebootKey (inst : InstanceInfo) : AppState :=
  if eqIgnoreAsciiCase inst.state "running" then .confirmReboot inst.id
  else
    .processing ("Error: Cannot reboot instance " ++ inst.id
      ++ " because it is in state " ++ String.singleton (Char.ofNat 39)
      ++ inst.state ++ String.singleton (Char.ofNat 39) ++ ".")

/-! ### Price cache merges and the bulk event handlers (src/main.rs) -/

/-- `type_prices.entry(t).or_insert(Prices { on_demand: None, spot: None })`
followed by `entry.on_demand = Some(p)`. -/
def setOnDemand : PriceMap → String → ℚ → PriceMap
  | [], t, p => [(t, ⟨some p, none⟩)]
  | (k, v) :: rest, t, p =>
    if k = t then (k, { v with on_demand := some p }) :: rest
    else (k, v) :: setOnDemand rest t p

/-- As `setOnDemand`, but writing the spot field. -/
def setSpot : PriceMap → String → ℚ → PriceMap
  | [], t, p => [(t, ⟨none, some p⟩)]
  | (k, v) :: rest, t, p =>
    if k = t then (k, { v with spot := some p }) :: rest
    else (k, v) :: setSpot rest t p

/-- The merge loop of the `BulkOnDemandFetched` handler. -/
def mergeOnDemand (cache : PriceMap) (ev : List (String × ℚ)) : PriceMap :=
  ev.foldl (fun c tp => setOnDemand c tp.1 tp.2) cache

/-- The merge loop of the `BulkSpotFetched` handler. -/
def mergeSpot (cache : PriceMap) (ev : List (String × ℚ)) : PriceMap :=
  ev.foldl (fun c tp => setSpot c tp.1 tp.2) cache

/-- The `BulkOnDemandFetched` event handler: merge the carried prices into
the cache, then — only when the state is `SelectingType` with default mode
inactive — re-sort the options by the merged prices and reset the selection
to row 0 (cleared when the list is empty). -/
def handleBulkOnDemand (cache : PriceMap) (st : AppState)
    (ev : List (String × ℚ)) : PriceMap × AppState :=
  let cache2 := mergeOnDemand cache ev
  match st with
  | .selectingType s =>
    if s.default_mode_active then (cache2, .selectingType s)
    else
      let opts := List.insertionSort (fun a b => typeLeB cache2 a b = true)
        s.options
      (cache2, .selectingType
        ⟨s.input, opts, if opts.isEmpty then none else some 0,
          s.default_mode_active⟩)
  | other => (cache2, other)

/-- The `BulkSpotFetched` event handler: merge only, the state is never
touched. -/
def handleBulkSpot (cache : PriceMap) (st : AppState)
    (ev : List (String × ℚ)) : PriceMap × AppState :=
  (mergeSpot cache ev, st)

/-! ### Navigation (src/app.rs `App::next` / `App::previous`)

`filtered_instances.len() - 1` is `usize` subtraction: it underflows when
the filtered list is empty.  A debug build panics there; a release build
wraps modulo `2 ^ 64`, which is what `usizeSub` computes. -/

/-- `2 ^ 64`, the modulus of `usize` arithmetic on the target platform. -/
def USIZE : Nat := 2 ^ 64

/-- Wrapping `usize` subtraction `a - b` (release-build semantics) for
`b ≤ 2 ^ 64`. -/
def usizeSub (a b : Nat) : Nat := (a + USIZE - b) % USIZE

/-- `App::next`: advance the selection, wrapping to the top at the end. -/
def nextSel (sel : Option Nat) (len : Nat) : Option Nat :=
  match sel with
  | some i => if usizeSub len 1 ≤ i then some 0 else some (i + 1)
  | none => some 0

/-- `App::previous`: retreat the selection, wrapping to the bottom at the
top. -/
def prevSel (sel : Option Nat) (len : Nat) : Option Nat :=
  match sel with
  | some i => if i = 0 then some (usizeSub len 1) else some (i - 1)
  | none => some 0

/-- The List-mode Home handler selects row 0 unconditionally
(src/main.rs, `KeyCode::Home`), even when the filtered list is empty. -/
def homeSel : Option Nat := some 0

/-! ### Resize saga (src/main.rs, `SelectingType` Enter spawn)

The spawned task is modelled as the trace of remote calls and emitted
events it produces, as a function of the outcome of each remote call. -/

/-- A remote call performed by the saga task. -/
inductive SagaCall
  | stop (instanceId : String)
  | wait (instanceId : String) (timeoutSecs : Nat)
  | modify (instanceId : String) (newType : String)
  | credit (instanceId : String) (creditSpec : String)
  | start (instanceId : String)
  deriving Repr, DecidableEq

/-- One element of the saga trace: a remote call, a `Message` event, an
`Error` event, or the `InstancesUpdated` refresh signal. -/
inductive SagaItem
  | call (c : SagaCall)
  | msg (s : String)
  | err (s : String)
  | refresh
  deriving Repr, DecidableEq

/-- The resize saga task: stop, wait-until-stopped (300 s ceiling), modify
type, credit specification when the new type starts with `"t"` (a failure
here does not return), start, completion message and refresh signal.  Each
fallible step is given by its outcome. -/
def resizeSaga (iid newType creditSpec : String)
    (stopR waitR modifyR creditR startR : Except String Unit) :
    List SagaItem :=
  .call (.stop iid) ::
    match stopR with
    | .error e => [.err ("Stop failed: " ++ e)]
    | .ok _ =>
      .msg "Waiting for stop..." :: .call (.wait iid 300) ::
        match waitR with
        | .error e => [.err ("Wait failed: " ++ e)]
        | .ok _ =>
          .msg ("Changing to " ++ newType ++ "...")
            :: .call (.modify iid newType) ::
            match modifyR with
            | .error e => [.err ("Modify failed: " ++ e)]
            | .ok _ =>
              (if strStarts newType "t" then
                .msg "Setting credit spec..." :: .call (.credit iid creditSpec)
                  :: (match creditR with
                      | .error e => [.err ("Credit spec failed: " ++ e)]
                      | .ok _ => [])
              else [])
              ++ .msg "Starting..." :: .call (.start iid) ::
                match startR with
                | .error e => [.err ("Start failed: " ++ e)]
                | .ok _ => [.msg "Done. Refreshing...", .refresh]

/-! ### Order properties of the two comparators -/

theorem nameLeB_total (a b : InstanceInfo) :
    nameLeB a b = true ∨ nameLeB b a = true :=
  strLeB_total _ _

theorem nameLeB_trans {a b c : InstanceInfo} (hab : nameLeB a b = true)
    (hbc : nameLeB b c = true) : nameLeB a c = true :=
  strLeB_trans hab hbc

theorem typeLeB_iff (prices : PriceMap) (a b : String) :
    typeLeB prices a b = true ↔ rankRel prices a b := by
  unfold typeLeB rankRel priceTop
  cases ha : odKey prices a <;> cases hb : odKey prices b <;>
    simp [keyLt, keyEqB, WithTop.coe_lt_top, WithTop.coe_lt_coe]

theorem rankRel_total (prices : PriceMap) (a b : String) :
    rankRel prices a b ∨ rankRel prices b a := by
  rcases lt_trichotomy (priceTop prices a) (priceTop prices b) with h | h | h
  · exact .inl (.inl h)
  · rcases strLeB_total a b with hs | hs
    · exact .inl (.inr ⟨h, hs⟩)
    · exact .inr (.inr ⟨h.symm, hs⟩)
  · exact .inr (.inl h)

theorem rankRel_trans (prices : PriceMap) {a b c : String}
    (hab : rankRel prices a b) (hbc : rankRel prices b c) :
    rankRel prices a c := by
  rcases hab with h1 | ⟨h1, hs1⟩ <;> rcases hbc with h2 | ⟨h2, hs2⟩
  · exact .inl (lt_trans h1 h2)
  · exact .inl (h2 ▸ h1)
  · exact .inl (h1 ▸ h2)
  · exact .inr ⟨h1.trans h2, strLeB_trans hs1 hs2⟩

theorem typeLeB_total (prices : PriceMap) (a b : String) :
    typeLeB prices a b = true ∨ typeLeB prices b a = true := by
  rcases rankRel_total prices a b with h | h
  · exact .inl ((typeLeB_iff prices a b).mpr h)
  · exact .inr ((typeLeB_iff prices b a).mpr h)

theorem typeLeB_trans (prices : PriceMap) {a b c : String}
    (hab : typeLeB prices a b = true) (hbc : typeLeB prices b c = true) :
    typeLeB prices a c = true :=
  (typeLeB_iff prices a c).mpr
    (rankRel_trans prices ((typeLeB_iff prices a b).mp hab)
      ((typeLeB_iff prices b c).mp hbc))

/-! ### Characterizing `update_filter` -/

theorem matchesFilter_of_empty {f : String} (hf : strIsEmpty f = true)
    (i : InstanceInfo) : matchesFilter f i = true := by
  have hl : f.data = [] := by
    simpa [strIsEmpty, String.toList, List.isEmpty_iff] using hf
  simp [matchesFilter, strLower, strContains, String.toList, hl,
    charsContain_nil]

theorem mem_rawFiltered (instances : List InstanceInfo) (f : String)
    (x : InstanceInfo) :
    x ∈ rawFiltered instances f ↔
      x ∈ instances ∧ matchesFilter f x = true := by
  unfold rawFiltered
  by_cases hf : strIsEmpty f = true
  · simp [hf, matchesFilter_of_empty hf]
  · simp [hf, List.mem_filter]

theorem update_filter_visible (instances : List InstanceInfo) (f : String)
    (sel : Option Nat) :
    (update_filter instances f sel).visible =
      List.insertionSort (fun a b => nameLeB a b = true)
        (rawFiltered instances f) := by
  simp only [update_filter]
  split
  · next h => simp [List.isEmpty_iff.mp h]
  · split <;> rfl

theorem update_filter_selected (instances : List InstanceInfo) (f : String)
    (sel : Option Nat) :
    (update_filter instances f sel).selected =
      if (rawFiltered instances f).isEmpty then none
      else if (rawFiltered instances f).length ≤ sel.getD 0 then some 0
      else sel := by
  simp only [update_filter]
  have hlen : (List.insertionSort (fun a b => nameLeB a b = true)
      (rawFiltered instances f)).length = (rawFiltered instances f).length :=
    (List.perm_insertionSort _ _).length_eq
  split
  · next h => simp [h]
  · next h =>
    rw [hlen]
    split <;> rfl

theorem mem_update_filter (instances : List InstanceInfo) (f : String)
    (sel : Option Nat) (x : InstanceInfo) :
    x ∈ (update_filter instances f sel).visible ↔
      x ∈ instances ∧ matchesFilter f x = true := by
  rw [update_filter_visible,
    (List.perm_insertionSort (fun a b => nameLeB a b = true)
      (rawFiltered instances f)).mem_iff]
  exact mem_rawFiltered instances f x

theorem sorted_update_filter (instances : List InstanceInfo) (f : String)
    (sel : Option Nat) :
    (update_filter instances f sel).visible.Pairwise
      (fun a b => nameLeB a b = true) := by
  haveI : IsTotal InstanceInfo (fun a b => nameLeB a b = true) :=
    ⟨nameLeB_total⟩
  haveI : IsTrans InstanceInfo (fun a b => nameLeB a b = true) :=
    ⟨fun _ _ _ => nameLeB_trans⟩
  rw [update_filter_visible]
  exact List.sorted_insertionSort (fun a b => nameLeB a b = true) _

theorem visible_length_eq (instances : List InstanceInfo) (f : String)
    (sel : Option Nat) :
    (update_filter instances f sel).visible.length =
      (rawFiltered instances f).length := by
  rw [update_filter_visible]
  exact (List.perm_insertionSort _ _).length_eq

theorem selected_update_filter_empty (instances : List InstanceInfo)
    (f : String) (sel : Option ℕ)
    (h : (update_filter instances f sel).visible = []) :
    (update_filter instances f sel).selected = none := by
  have hr : (rawFiltered instances f).length = 0 := by
    rw [← visible_length_eq instances f sel, h]; rfl
  rw [update_filter_selected, if_pos]
  exact List.isEmpty_iff.mpr (List.length_eq_zero.mp hr)

theorem selected_update_filter_in_range (instances : List InstanceInfo)
    (f : String) (i : Nat)
    (h : i < (update_filter instances f (some i)).visible.length) :
    (update_filter instances f (some i)).selected = some i := by
  rw [visible_length_eq] at h
  have hne : ¬ (rawFiltered instances f).isEmpty = true := by
    intro hc
    rw [List.isEmpty_iff.mp hc] at h
    exact absurd h (by simp)
  rw [update_filter_selected, if_neg hne, if_neg (by simpa using Nat.not_le.mpr h)]

theorem selected_update_filter_out_of_range (instances : List InstanceInfo)
    (f : String) (i : Nat)
    (hne : (update_filter instances f (some i)).visible ≠ [])
    (h : (update_filter instances f (some i)).visible.length ≤ i) :
    (update_filter instances f (some i)).selected = some 0 := by
  rw [visible_length_eq] at h
  have hne2 : ¬ (rawFiltered instances f).isEmpty = true := by
    intro hc
    exact hne (by rw [update_filter_visible, List.isEmpty_iff.mp hc]; rfl)
  rw [update_filter_selected, if_neg hne2, if_pos (by simpa using h)]

/-! ### Field-by-field merge lemmas for the price cache -/

theorem lookupP_setOnDemand_ne (c : PriceMap) (t t' : String) (p : ℚ)
    (h : t' ≠ t) : lookupP (setOnDemand c t p) t' = lookupP c t' := by
  have hne : ¬ t = t' := fun hc => h hc.symm
  induction c with
  | nil => simp [setOnDemand, lookupP, hne]
  | cons kv rest ih =>
    obtain ⟨k, v⟩ := kv
    by_cases hk : k = t
    · subst hk
      simp [setOnDemand, lookupP, hne]
    · simp [setOnDemand, hk, lookupP]
      split <;> simp [ih]

theorem lookupP_setSpot_ne (c : PriceMap) (t t' : String) (p : ℚ)
    (h : t' ≠ t) : lookupP (setSpot c t p) t' = lookupP c t' := by
  have hne : ¬ t = t' := fun hc => h hc.symm
  induction c with
  | nil => simp [setSpot, lookupP, hne]
  | cons kv rest ih =>
    obtain ⟨k, v⟩ := kv
    by_cases hk : k = t
    · subst hk
      simp [setSpot, lookupP, hne]
    · simp [setSpot, hk, lookupP]
      split <;> simp [ih]

theorem odKey_setOnDemand_self (c : PriceMap) (t : String) (p : ℚ) :
    odKey (setOnDemand c t p) t = some p := by
  induction c with
  | nil => simp [setOnDemand, lookupP, odKey]
  | cons kv rest ih =>
    obtain ⟨k, v⟩ := kv
    by_cases hk : k = t
    · subst hk
      simp [setOnDemand, lookupP, odKey]
    · simp [setOnDemand, hk, lookupP, odKey] at ih ⊢
      exact ih

theorem spotKey_setSpot_self (c : PriceMap) (t : String) (p : ℚ) :
    spotKey (setSpot c t p) t = some p := by
  induction c with
  | nil => simp [setSpot, lookupP, spotKey]
  | cons kv rest ih =>
    obtain ⟨k, v⟩ := kv
    by_cases hk : k = t
    · subst hk
      simp [setSpot, lookupP, spotKey]
    · simp [setSpot, hk, lookupP, spotKey] at ih ⊢
      exact ih

theorem spotKey_setOnDemand (c : PriceMap) (t t' : String) (p : ℚ) :
    spotKey (setOnDemand c t p) t' = spotKey c t' := by
  induction c with
  | nil =>
    by_cases h : t = t' <;> simp [setOnDemand, lookupP, spotKey, h]
  | cons kv rest ih =>
    obtain ⟨k, v⟩ := kv
    by_cases hk : k = t
    · subst hk
      by_cases h : k = t' <;> simp [setOnDemand, lookupP, spotKey, h]
    · simp only [setOnDemand, if_neg hk]
      by_cases h : k = t' <;> simp [lookupP, spotKey, h] <;>
        simpa [spotKey] using ih

theorem odKey_setSpot (c : PriceMap) (t t' : String) (p : ℚ) :
    odKey (setSpot c t p) t' = odKey c t' := by
  induction c with
  | nil =>
    by_cases h : t = t' <;> simp [setSpot, lookupP, odKey, h]
  | cons kv rest ih =>
    obtain ⟨k, v⟩ := kv
    by_cases hk : k = t
    · subst hk
      by_cases h : k = t' <;> simp [setSpot, lookupP, odKey, h]
    · simp only [setSpot, if_neg hk]
      by_cases h : k = t' <;> simp [lookupP, odKey, h] <;>
        simpa [odKey] using ih

theorem spotKey_mergeOnDemand (c : PriceMap) (ev : List (String × ℚ))
    (t : String) : spotKey (mergeOnDemand c ev) t = spotKey c t := by
  induction ev generalizing c with
  | nil => rfl
  | cons kv rest ih =>
    obtain ⟨k, p⟩ := kv
    simpa [mergeOnDemand] using
      (ih (setOnDemand c k p)).trans (spotKey_setOnDemand c k t p)

theorem odKey_mergeSpot (c : PriceMap) (ev : List (String × ℚ))
    (t : String) : odKey (mergeSpot c ev) t = odKey c t := by
  induction ev generalizing c with
  | nil => rfl
  | cons kv rest ih =>
    obtain ⟨k, p⟩ := kv
    simpa [mergeSpot] using
      (ih (setSpot c k p)).trans (odKey_setSpot c k t p)

theorem lookupP_mergeOnDemand_notin (c : PriceMap) (ev : List (String × ℚ))
    (t : String) (h : t ∉ ev.map Prod.fst) :
    lookupP (mergeOnDemand c ev) t = lookupP c t := by
  induction ev generalizing c with
  | nil => rfl
  | cons kv rest ih =>
    obtain ⟨k, p⟩ := kv
    simp only [List.map_cons, List.mem_cons, not_or] at h
    simpa [mergeOnDemand] using
      (ih (setOnDemand c k p) h.2).trans
        (lookupP_setOnDemand_ne c k t p h.1)

theorem lookupP_mergeSpot_notin (c : PriceMap) (ev : List (String × ℚ))
    (t : String) (h : t ∉ ev.map Prod.fst) :
    lookupP (mergeSpot c ev) t = lookupP c t := by
  induction ev generalizing c with
  | nil => rfl
  | cons kv rest ih =>
    obtain ⟨k, p⟩ := kv
    simp only [List.map_cons, List.mem_cons, not_or] at h
    simpa [mergeSpot] using
      (ih (setSpot c k p) h.2).trans (lookupP_setSpot_ne c k t p h.1)

theorem odKey_mergeOnDemand_carried (c : PriceMap) (ev : List (String × ℚ))
    (t : String) (p : ℚ) (hnd : (ev.map Prod.fst).Nodup)
    (hl : lookupQ ev t = some p) :
    odKey (mergeOnDemand c ev) t = some p := by
  induction ev generalizing c with
  | nil => simp [lookupQ] at hl
  | cons kv rest ih =>
    obtain ⟨k, v⟩ := kv
    simp only [List.map_cons, List.nodup_cons] at hnd
    by_cases hk : k = t
    · subst hk
      simp [lookupQ] at hl
      subst hl
      have hrest : k ∉ rest.map Prod.fst := hnd.1
      have hlk : lookupP (mergeOnDemand (setOnDemand c k v) rest) k =
          lookupP (setOnDemand c k v) k :=
        lookupP_mergeOnDemand_notin _ rest k hrest
      calc odKey (mergeOnDemand c ((k, v) :: rest)) k
          = odKey (mergeOnDemand (setOnDemand c k v) rest) k := by
            simp [mergeOnDemand]
        _ = odKey (setOnDemand c k v) k := by simp [odKey, hlk]
        _ = some v := odKey_setOnDemand_self c k v
    · simp only [lookupQ, if_neg hk] at hl
      simpa [mergeOnDemand] using ih (setOnDemand c k v) hnd.2 hl

theorem spotKey_mergeSpot_carried (c : PriceMap) (ev : List (String × ℚ))
    (t : String) (p : ℚ) (hnd : (ev.map Prod.fst).Nodup)
    (hl : lookupQ ev t = some p) :
    spotKey (mergeSpot c ev) t = some p := by
  induction ev generalizing c with
  | nil => simp [lookupQ] at hl
  | cons kv rest ih =>
    obtain ⟨k, v⟩ := kv
    simp only [List.map_cons, List.nodup_cons] at hnd
    by_cases hk : k = t
    · subst hk
      simp [lookupQ] at hl
      subst hl
      have hrest : k ∉ rest.map Prod.fst := hnd.1
      have hlk : lookupP (mergeSpot (setSpot c k v) rest) k =
          lookupP (setSpot c k v) k :=
        lookupP_mergeSpot_notin _ rest k hrest
      calc spotKey (mergeSpot c ((k, v) :: rest)) k
          = spotKey (mergeSpot (setSpot c k v) rest) k := by
            simp [mergeSpot]
        _ = spotKey (setSpot c k v) k := by simp [spotKey, hlk]
        _ = some v := spotKey_setSpot_self c k v
    · simp only [lookupQ, if_neg hk] at hl
      simpa [mergeSpot] using ih (setSpot c k v) hnd.2 hl

theorem starting_ne_changing (nt : String) :
    ("Starting..." : String) ≠ "Changing to " ++ nt ++ "..." := by
  intro h
  have h2 := congrArg String.data h
  simp only [String.data_append] at h2
  simp at h2

theorem strContains_of_empty {needle : String} (h : strIsEmpty needle = true)
    (hay : String) : strContains hay needle = true := by
  have hl : needle.data = [] := by
    simpa [strIsEmpty, String.toList, List.isEmpty_iff] using h
  simp [strContains, String.toList, hl, charsContain_nil]

theorem rawFiltered_of_empty (instances : List InstanceInfo) {f : String}
    (h : strIsEmpty f = true) : rawFiltered instances f = instances := by
  simp [rawFiltered, h]

/-! ### The claims -/

/-- C3: for every instance list and filter string, the instance filter
returns exactly the instances whose id, name, type, or state contains the
query case-insensitively (empty query matches everything), sorted by
display name ascending with a missing name treated as the empty string;
the previously selected index is preserved if still in range, otherwise
reset to row 0 when the result is non-empty, and set to no selection when
the result is empty. -/
theorem instance_filter_contract (instances : List InstanceInfo)
    (f : String) :
    (∀ sel x, x ∈ (update_filter instances f sel).visible ↔
        x ∈ instances ∧ matchesFilter f x = true)
    ∧ (∀ sel, strIsEmpty f = true →
        (update_filter instances f sel).visible.Perm instances)
    ∧ (∀ sel, (update_filter instances f sel).visible.Pairwise
        (fun a b => strLeB (a.name.getD "") (b.name.getD "") = true))
    ∧ (∀ sel, (update_filter instances f sel).visible = [] →
        (update_filter instances f sel).selected = none)
    ∧ (∀ i, i < (update_filter instances f (some i)).visible.length →
        (update_filter instances f (some i)).selected = some i)
    ∧ (∀ i, (update_filter instances f (some i)).visible ≠ [] →
        (update_filter instances f (some i)).visible.length ≤ i →
        (update_filter instances f (some i)).selected = some 0) := by
  refine ⟨fun sel x => mem_update_filter instances f sel x,
    fun sel h => ?_,
    fun sel => sorted_update_filter instances f sel,
    fun sel => selected_update_filter_empty instances f sel,
    fun i => selected_update_filter_in_range instances f i,
    fun i => selected_update_filter_out_of_range instances f i⟩
  rw [update_filter_visible, rawFiltered_of_empty instances h]
  exact List.perm_insertionSort _ instances

/-- Witness for C3 on the spec's own scenario: instances
`[i-1 "Web" running, i-2 "DB" stopped]`, filter `"web"` keeps exactly
`i-1`; an in-range selection survives, an out-of-range one snaps to 0, and
a filter matching nothing clears the selection. -/
theorem instance_filter_contract_witness :
    ((⟨"i-1", some "Web", "t3.micro", "running", some "x86_64",
        some "us-east-1a", none, none⟩ : InstanceInfo) ∈
      (update_filter
        [⟨"i-1", some "Web", "t3.micro", "running", some "x86_64",
            some "us-east-1a", none, none⟩,
          ⟨"i-2", some "DB", "t3.micro", "stopped", some "x86_64",
            some "us-east-1a", none, none⟩] "web" (some 0)).visible)
    ∧ (update_filter
        [⟨"i-1", some "Web", "t3.micro", "running", some "x86_64",
            some "us-east-1a", none, none⟩,
          ⟨"i-2", some "DB", "t3.micro", "stopped", some "x86_64",
            some "us-east-1a", none, none⟩] "web" (some 0)).selected = some 0
    ∧ (update_filter
        [⟨"i-1", some "Web", "t3.micro", "running", some "x86_64",
            some "us-east-1a", none, none⟩,
          ⟨"i-2", some "DB", "t3.micro", "stopped", some "x86_64",
            some "us-east-1a", none, none⟩] "web" (some 5)).selected = some 0
    ∧ (update_filter
        [⟨"i-1", some "Web", "t3.micro", "running", some "x86_64",
            some "us-east-1a", none, none⟩,
          ⟨"i-2", some "DB", "t3.micro", "stopped", some "x86_64",
            some "us-east-1a", none, none⟩] "zzz" (some 0)).selected = none := by
  refine ⟨?_, ?_, ?_, ?_⟩
  · exact ((instance_filter_contract _ "web").1 (some 0) _).mpr
      ⟨by decide, by decide⟩
  · exact (instance_filter_contract _ "web").2.2.2.2.1 0 (by decide)
  · exact (instance_filter_contract _ "web").2.2.2.2.2 5 (by decide) (by decide)
  · exact (instance_filter_contract _ "zzz").2.2.2.1 (some 0) (by decide)

/-- C10: for all instance lists and filter strings the instance filter is
idempotent — filtering its own result again with the same string yields the
same set of instances. -/
theorem instance_filter_idempotent (instances : List InstanceInfo)
    (f : String) (sel sel2 : Option Nat) (x : InstanceInfo) :
    (x ∈ (update_filter (update_filter instances f sel).visible f
        sel2).visible ↔
      x ∈ (update_filter instances f sel).visible) := by
  rw [mem_update_filter, mem_update_filter]
  tauto

/-- C4: for every list of architecture-compatible type names, input string
and price cache, the type filter returns the names containing the input as
a substring (an empty input keeps the full list), sorted ascending by
on-demand price with unknown prices ordered last (as `⊤`) and ties broken
by ascending name; the selection index is 0 exactly when the result is
non-empty. -/
theorem type_filter_contract (allTypes : List String) (input : String)
    (prices : PriceMap) :
    (∀ t, t ∈ (applyTypeFilter allTypes input prices).options ↔
        t ∈ allTypes ∧ strContains t input = true)
    ∧ (strIsEmpty input = true →
        (applyTypeFilter allTypes input prices).options.Perm allTypes)
    ∧ (applyTypeFilter allTypes input prices).options.Pairwise
        (rankRel prices)
    ∧ ((applyTypeFilter allTypes input prices).options = [] →
        (applyTypeFilter allTypes input prices).selected_index = none)
    ∧ ((applyTypeFilter allTypes input prices).options ≠ [] →
        (applyTypeFilter allTypes input prices).selected_index = some 0) := by
  haveI : IsTotal String (fun a b => typeLeB prices a b = true) :=
    ⟨typeLeB_total prices⟩
  haveI : IsTrans String (fun a b => typeLeB prices a b = true) :=
    ⟨fun _ _ _ => typeLeB_trans prices⟩
  refine ⟨?_, ?_, ?_, ?_, ?_⟩
  · intro t
    simp only [applyTypeFilter]
    rw [(List.perm_insertionSort _ _).mem_iff]
    simp [List.mem_filter]
  · intro h
    have hf : allTypes.filter (fun t => strContains t input) = allTypes :=
      List.filter_eq_self.mpr (fun t _ => strContains_of_empty h t)
    simp only [applyTypeFilter]
    rw [hf]
    exact List.perm_insertionSort _ allTypes
  · exact List.Pairwise.imp (fun h => (typeLeB_iff prices _ _).mp h)
      (List.sorted_insertionSort _ _)
  · intro h
    simp only [applyTypeFilter] at h ⊢
    rw [if_pos (by simpa [List.isEmpty_iff] using h)]
  · intro h
    simp only [applyTypeFilter] at h ⊢
    rw [if_neg (by simpa [List.isEmpty_iff] using h)]

/-- Witness for C4: filtering `["t3.micro", "m5.large", "t3.nano"]` with an
empty input keeps all three types, and with a known price only for
`"t3.nano"` the selection lands on row 0. -/
theorem type_filter_contract_witness :
    (applyTypeFilter ["t3.micro", "m5.large", "t3.nano"] ""
        [("t3.nano", ⟨some 1, none⟩)]).options.Perm
      ["t3.micro", "m5.large", "t3.nano"]
    ∧ (applyTypeFilter ["t3.micro", "m5.large", "t3.nano"] ""
        [("t3.nano", ⟨some 1, none⟩)]).selected_index = some 0 := by
  refine ⟨?_, ?_⟩
  · exact (type_filter_contract ["t3.micro", "m5.large", "t3.nano"] ""
      [("t3.nano", ⟨some 1, none⟩)]).2.1 (by decide)
  · exact (type_filter_contract ["t3.micro", "m5.large", "t3.nano"] ""
      [("t3.nano", ⟨some 1, none⟩)]).2.2.2.2 (by decide)

/-- C8: merging a bulk price event updates only the field the event
carries — an on-demand event never changes any spot price and a spot event
never changes any on-demand price; cache entries for types the event does
not carry are untouched, and each carried type receives exactly the carried
value in the carried field. -/
theorem price_merge_frame (cache : PriceMap) (ev : List (String × ℚ))
    (t : String) :
    (spotKey (mergeOnDemand cache ev) t = spotKey cache t)
    ∧ (odKey (mergeSpot cache ev) t = odKey cache t)
    ∧ (t ∉ ev.map Prod.fst →
        lookupP (mergeOnDemand cache ev) t = lookupP cache t)
    ∧ (t ∉ ev.map Prod.fst →
        lookupP (mergeSpot cache ev) t = lookupP cache t)
    ∧ (∀ p, (ev.map Prod.fst).Nodup → lookupQ ev t = some p →
        odKey (mergeOnDemand cache ev) t = some p)
    ∧ (∀ p, (ev.map Prod.fst).Nodup → lookupQ ev t = some p →
        spotKey (mergeSpot cache ev) t = some p) :=
  ⟨spotKey_mergeOnDemand cache ev t,
    odKey_mergeSpot cache ev t,
    lookupP_mergeOnDemand_notin cache ev t,
    lookupP_mergeSpot_notin cache ev t,
    fun p hnd hl => odKey_mergeOnDemand_carried cache ev t p hnd hl,
    fun p hnd hl => spotKey_mergeSpot_carried cache ev t p hnd hl⟩

/-- Witness for C8: merging the on-demand event `[("a", 5), ("b", 7)]` into
the cache `[("a", {od 1, spot 2})]` keeps `a`'s spot price 2, sets `a`'s
on-demand price to 5, and leaves the absent type `"c"` absent. -/
theorem price_merge_frame_witness :
    spotKey (mergeOnDemand [("a", ⟨some 1, some 2⟩)] [("a", 5), ("b", 7)]) "a"
        = some 2
    ∧ odKey (mergeOnDemand [("a", ⟨some 1, some 2⟩)] [("a", 5), ("b", 7)]) "a"
        = some 5
    ∧ lookupP (mergeOnDemand [("a", ⟨some 1, some 2⟩)] [("a", 5), ("b", 7)])
        "c" = none := by
  refine ⟨?_, ?_, ?_⟩
  · exact (price_merge_frame [("a", ⟨some 1, some 2⟩)] [("a", 5), ("b", 7)]
      "a").1.trans (by decide)
  · exact (price_merge_frame [("a", ⟨some 1, some 2⟩)] [("a", 5), ("b", 7)]
      "a").2.2.2.2.1 5 (by decide) (by decide)
  · exact ((price_merge_frame [("a", ⟨some 1, some 2⟩)] [("a", 5), ("b", 7)]
      "c").2.2.1 (by decide)).trans (by decide)

/-- C2: handling a bulk on-demand price event in a `SelectingType` state
always merges the carried prices into the cache; when `default_mode_active`
is false at arrival the options are re-sorted (a permutation, ordered by
the merged on-demand prices with unknown prices last and ties by name) and
the selection resets to row 0 — or to absent when the list is empty — while
when `default_mode_active` is true the picker state is left entirely
unchanged. -/
theorem bulk_on_demand_handler (cache : PriceMap) (s : SelSt)
    (ev : List (String × ℚ)) :
    ((handleBulkOnDemand cache (.selectingType s) ev).1 =
        mergeOnDemand cache ev)
    ∧ (s.default_mode_active = true →
        (handleBulkOnDemand cache (.selectingType s) ev).2 =
          .selectingType s)
    ∧ (s.default_mode_active = false →
        ∃ s2, (handleBulkOnDemand cache (.selectingType s) ev).2 =
            .selectingType s2
          ∧ s2.input = s.input
          ∧ s2.default_mode_active = false
          ∧ s2.options.Perm s.options
          ∧ s2.options.Pairwise (rankRel (mergeOnDemand cache ev))
          ∧ s2.selected_index =
              (if s2.options.isEmpty then none else some 0)) := by
  haveI : IsTotal String
      (fun a b => typeLeB (mergeOnDemand cache ev) a b = true) :=
    ⟨typeLeB_total _⟩
  haveI : IsTrans String
      (fun a b => typeLeB (mergeOnDemand cache ev) a b = true) :=
    ⟨fun _ _ _ => typeLeB_trans _⟩
  refine ⟨?_, ?_, ?_⟩
  · simp only [handleBulkOnDemand]
    split <;> rfl
  · intro h
    simp [handleBulkOnDemand, h]
  · intro h
    refine ⟨⟨s.input,
      List.insertionSort
        (fun a b => typeLeB (mergeOnDemand cache ev) a b = true) s.options,
      if (List.insertionSort
          (fun a b => typeLeB (mergeOnDemand cache ev) a b = true)
          s.options).isEmpty then none else some 0,
      s.default_mode_active⟩, ?_, rfl, h, ?_, ?_, rfl⟩
    · simp [handleBulkOnDemand, h]
    · exact List.perm_insertionSort _ s.options
    · exact List.Pairwise.imp (fun hp => (typeLeB_iff _ _ _).mp hp)
        (List.sorted_insertionSort _ _)

/-- Witness for C2: the same event delivered in each mode — with default
mode active the picker keeps its alphabetical options and empty selection,
with it inactive the options are re-sorted and the selection resets. -/
theorem bulk_on_demand_handler_witness :
    (handleBulkOnDemand [] (.selectingType ⟨"x", ["b", "a"], none, true⟩)
        [("a", 1)]).2 = .selectingType ⟨"x", ["b", "a"], none, true⟩
    ∧ ∃ s2, (handleBulkOnDemand []
          (.selectingType ⟨"x", ["b", "a"], none, false⟩) [("a", 1)]).2 =
        .selectingType s2 ∧ s2.options.Perm ["b", "a"]
        ∧ s2.selected_index = (if s2.options.isEmpty then none else some 0) := by
  refine ⟨(bulk_on_demand_handler [] ⟨"x", ["b", "a"], none, true⟩
    [("a", 1)]).2.1 rfl, ?_⟩
  obtain ⟨s2, h1, _, _, hperm, _, hsel⟩ :=
    (bulk_on_demand_handler [] ⟨"x", ["b", "a"], none, false⟩
      [("a", 1)]).2.2 rfl
  exact ⟨s2, h1, hperm, hsel⟩

/-- C5: pressing Enter in `SelectingType` chooses the sole entry when
exactly one option remains, regardless of the selection index; otherwise
the entry at the selection index when one is set; otherwise the typed text
when it equals some option, and nothing otherwise; a choice equal to the
highlighted instance's current type returns to `List` with no remote call,
and no choice leaves the state untouched. -/
theorem enter_choice_contract :
    (∀ input x selIdx, chooseOption input [x] selIdx = some x)
    ∧ (∀ input options i, options.length ≠ 1 →
        chooseOption input options (some i) = options[i]?)
    ∧ (∀ input options, options.length ≠ 1 →
        options.any (fun t => decide (t = input)) = true →
        chooseOption input options none = some input)
    ∧ (∀ input options, options.length ≠ 1 →
        options.any (fun t => decide (t = input)) = false →
        chooseOption input options none = none)
    ∧ (∀ input options selIdx currentType,
        chooseOption input options selIdx = none →
        enterKey input options selIdx currentType = .stay)
    ∧ (∀ input options selIdx currentType,
        chooseOption input options selIdx = some currentType →
        enterKey input options selIdx currentType = .toList) := by
  refine ⟨?_, ?_, ?_, ?_, ?_, ?_⟩
  · intro input x selIdx
    simp [chooseOption]
  · intro input options i h
    simp [chooseOption, h]
  · intro input options h ha
    simp [chooseOption, h, ha]
  · intro input options h ha
    simp [chooseOption, h, ha]
  · intro input options selIdx currentType h
    simp [enterKey, h]
  · intro input options selIdx currentType h
    simp [enterKey, h]

/-- Witness for C5 on the spec's scenario: options `["t3.micro"]` with the
stray index 5 still selects `"t3.micro"`, and when that equals the
instance's current type Enter returns to `List`; with two options the set
index picks the entry at it. -/
theorem enter_choice_contract_witness :
    chooseOption "zzz" ["t3.micro"] (some 5) = some "t3.micro"
    ∧ enterKey "zzz" ["t3.micro"] (some 5) "t3.micro" = .toList
    ∧ chooseOption "zzz" ["a", "b"] (some 1) = some "b"
    ∧ enterKey "zzz" ["a", "b"] none "x" = .stay := by
  refine ⟨enter_choice_contract.1 "zzz" "t3.micro" (some 5), ?_, ?_, ?_⟩
  · exact enter_choice_contract.2.2.2.2.2 "zzz" ["t3.micro"] (some 5)
      "t3.micro" (by decide)
  · exact (enter_choice_contract.2.1 "zzz" ["a", "b"] 1 (by decide)).trans
      (by decide)
  · exact enter_choice_contract.2.2.2.2.1 "zzz" ["a", "b"] none "x"
      (by decide)

/-- C6 counterexample: in default mode, a Backspace key press leaves the
`SelectingType` state completely unchanged — in particular it does NOT
deactivate default mode, contradicting the claim that Backspace deactivates
it and applies the edit. -/
theorem backspace_default_mode_counterexample :
    backspaceKey ⟨"t3a.nano", ["a", "b"], none, true⟩ ["a", "b"] "t3a.nano" []
        = ⟨"t3a.nano", ["a", "b"], none, true⟩
    ∧ (backspaceKey ⟨"t3a.nano", ["a", "b"], none, true⟩ ["a", "b"]
        "t3a.nano" []).default_mode_active = true :=
  ⟨rfl, rfl⟩

/-- C6 (amended): while default mode is active, any typed character
deactivates it, clearing the input text first and then appending the
character; a Backspace key press while default mode is active is a no-op
that leaves the whole picker state (default mode included) unchanged. -/
theorem default_mode_deactivation (input : String) (options : List String)
    (selIdx : Option Nat) (c : Char) (allTypes : List String)
    (prices : PriceMap) (defaultType : String) :
    ((charKey ⟨input, options, selIdx, true⟩ c allTypes
        prices).default_mode_active = false)
    ∧ ((charKey ⟨input, options, selIdx, true⟩ c allTypes prices).input =
        String.push "" c)
    ∧ (backspaceKey ⟨input, options, selIdx, true⟩ allTypes defaultType
        prices = ⟨input, options, selIdx, true⟩) :=
  ⟨rfl, rfl, rfl⟩

/-- C7 counterexample: an instance whose state is `"RUNNING"` — a state
other than `"running"` — still reaches the `ConfirmReboot` dialog, because
the source compares with `eq_ignore_ascii_case`; the claim as stated (any
state other than `"running"` goes straight to `Processing`) is false. -/
theorem reboot_case_counterexample :
    rebootKey ⟨"i-1", none, "t3.micro", "RUNNING", none, none, none, none⟩
        = .confirmReboot "i-1"
    ∧ ("RUNNING" : String) ≠ "running" := by
  exact ⟨by decide, by decide⟩

/-- C7 (amended): a reboot request transitions to `ConfirmReboot` exactly
when the highlighted instance's state equals `"running"` ignoring ASCII
case; otherwise it goes straight to `Processing` with the explanatory
error message, and in neither case does the handler spawn a remote call. -/
theorem reboot_transition (inst : InstanceInfo) :
    (rebootKey inst = .confirmReboot inst.id ↔
      eqIgnoreAsciiCase inst.state "running" = true)
    ∧ (eqIgnoreAsciiCase inst.state "running" = false →
        rebootKey inst = .processing ("Error: Cannot reboot instance "
          ++ inst.id ++ " because it is in state "
          ++ String.singleton (Char.ofNat 39) ++ inst.state
          ++ String.singleton (Char.ofNat 39) ++ ".")) := by
  constructor
  · by_cases h : eqIgnoreAsciiCase inst.state "running" = true
    · simp [rebootKey, h]
    · simp [rebootKey, h]
  · intro h
    simp [rebootKey, h]

/-- Witness for C7 (amended) on the spec's scenario: state `"stopped"`
skips the dialog and lands in `Processing` with the explanatory error. -/
theorem reboot_transition_witness :
    eqIgnoreAsciiCase "stopped" "running" = false
    ∧ rebootKey ⟨"i-2", none, "t3.micro", "stopped", none, none, none, none⟩
        = .processing ("Error: Cannot reboot instance " ++ "i-2"
          ++ " because it is in state " ++ String.singleton (Char.ofNat 39)
          ++ "stopped" ++ String.singleton (Char.ofNat 39) ++ ".") :=
  ⟨by decide,
    (reboot_transition
      ⟨"i-2", none, "t3.micro", "stopped", none, none, none, none⟩).2
      (by decide)⟩

/-- C9: at the failing input — an empty filtered list with the selection at
row 0, reachable by pressing Home in List mode while the filter matches
nothing — `App::next` computes `len - 1` on `usize` with `len = 0`:
the subtraction underflows (wrapping to `2 ^ 64 - 1` in a release build,
panicking in a debug build) and the resulting selections, row 1 for next
and row `2 ^ 64 - 1` for previous, are out of bounds of the empty list. -/
theorem nav_empty_list_underflow :
    homeSel = some 0
    ∧ usizeSub 0 1 = 2 ^ 64 - 1
    ∧ nextSel (some 0) 0 = some 1
    ∧ ¬ (1 < 0)
    ∧ prevSel (some 0) 0 = some (2 ^ 64 - 1)
    ∧ ¬ (2 ^ 64 - 1 < 0) := by
  refine ⟨rfl, rfl, rfl, by decide, rfl, by decide⟩

/-- C1: the resize saga aborts at the first failure of the stop, wait or
modify step, emitting the step-named error and nothing further — in
particular when modify fails after stop and wait succeed, no start call and
no start message follow; a credit-specification failure is reported but the
start step still runs; and a fully successful run performs every step in
strict sequence, ending with the completion message and the refresh
signal. -/
theorem resize_saga_contract (iid nt cs e : String)
    (waitR modifyR creditR startR : Except String Unit) :
    (resizeSaga iid nt cs (.error e) waitR modifyR creditR startR
        = [.call (.stop iid), .err ("Stop failed: " ++ e)])
    ∧ (resizeSaga iid nt cs (.ok ()) (.error e) modifyR creditR startR
        = [.call (.stop iid), .msg "Waiting for stop...",
           .call (.wait iid 300), .err ("Wait failed: " ++ e)])
    ∧ (resizeSaga iid nt cs (.ok ()) (.ok ()) (.error e) creditR startR
        = [.call (.stop iid), .msg "Waiting for stop...",
           .call (.wait iid 300), .msg ("Changing to " ++ nt ++ "..."),
           .call (.modify iid nt), .err ("Modify failed: " ++ e)])
    ∧ (SagaItem.call (.start iid) ∉
        resizeSaga iid nt cs (.ok ()) (.ok ()) (.error e) creditR startR)
    ∧ (SagaItem.msg "Starting..." ∉
        resizeSaga iid nt cs (.ok ()) (.ok ()) (.error e) creditR startR)
    ∧ (strStarts nt "t" = true →
        resizeSaga iid nt cs (.ok ()) (.ok ()) (.ok ()) (.error e) (.ok ())
          = [.call (.stop iid), .msg "Waiting for stop...",
             .call (.wait iid 300), .msg ("Changing to " ++ nt ++ "..."),
             .call (.modify iid nt), .msg "Setting credit spec...",
             .call (.credit iid cs), .err ("Credit spec failed: " ++ e),
             .msg "Starting...", .call (.start iid),
             .msg "Done. Refreshing...", .refresh])
    ∧ (SagaItem.call (.start iid) ∈
        resizeSaga iid nt cs (.ok ()) (.ok ()) (.ok ()) (.error e) (.ok ()))
    ∧ (strStarts nt "t" = false →
        resizeSaga iid nt cs (.ok ()) (.ok ()) (.ok ()) creditR (.ok ())
          = [.call (.stop iid), .msg "Waiting for stop...",
             .call (.wait iid 300), .msg ("Changing to " ++ nt ++ "..."),
             .call (.modify iid nt), .msg "Starting...",
             .call (.start iid), .msg "Done. Refreshing...", .refresh]) := by
  refine ⟨rfl, rfl, rfl, ?_, ?_, ?_, ?_, ?_⟩
  · simp [resizeSaga]
  · simp [resizeSaga, starting_ne_changing nt]
  · intro h
    simp [resizeSaga, h]
  · by_cases h : strStarts nt "t" = true <;> simp [resizeSaga, h]
  · intro h
    simp [resizeSaga, h]

/-- Witness for C1: a resize of `"i-1"` to the burstable type `"t3.small"`
whose credit-specification step fails still reaches the start call, and
its error event is in the trace. -/
theorem resize_saga_contract_witness :
    strStarts "t3.small" "t" = true
    ∧ SagaItem.err ("Credit spec failed: " ++ "boom") ∈
        resizeSaga "i-1" "t3.small" "standard" (.ok ()) (.ok ()) (.ok ())
          (.error "boom") (.ok ())
    ∧ SagaItem.call (.start "i-1") ∈
        resizeSaga "i-1" "t3.small" "standard" (.ok ()) (.ok ()) (.ok ())
          (.error "boom") (.ok ()) := by
  refine ⟨by decide, ?_, ?_⟩
  · rw [(resize_saga_contract "i-1" "t3.small" "standard" "boom" (.ok ())
      (.ok ()) (.error "boom") (.ok ())).2.2.2.2.2.1 (by decide)]
    decide
  · exact (resize_saga_contract "i-1" "t3.small" "standard" "boom" (.ok ())
      (.ok ()) (.error "boom") (.ok ())).2.2.2.2.2.2.1

end Ec2Mgr
